import Mathlib

/-! Console attach of `vzctl` (`src/enter.c`)

A shallow embedding of the console relay `vzcon_attach` (with `raw_on`,
`raw_off`, the `TREAD` / `TWRITE` helpers and the forked reader loop) and of the
pseudoterminal provisioning functions `vzcon_start` and `vzcon_start_vz7`.

System calls are not executed: every result the operating system hands back
(return values of `read`, `write`, `fork`, `open`, ...) is a field of an
environment record, and every call that matters is logged in a trace.
Bytes are natural numbers; `char` comparisons in the source are equalities
with the constants 27, 13, '.' (46) and ',' (44), so signedness plays no role.
Diagnostics printed with `fprintf` / `warn`, the installation of the signal
handlers and the window-size propagation `winch` are left out of the trace.
-/

namespace Vzctl

/-! ## Constants of `vzcon_attach` -/

/-- The escape byte, `const char esc = 27`. -/
abbrev esc : Nat := 27

/-- The line-end byte, `const char enter = 13`. -/
abbrev enter : Nat := 13

/-- The character constant `'.'`. -/
abbrev dot : Nat := 46

/-- The character constant `','`. -/
abbrev comma : Nat := 44

/-- Linux value of `EINTR`. -/
abbrev EINTR : Int := 4

/-- Linux value of `EAGAIN`. -/
abbrev EAGAIN : Int := 11

/-! ## Data model -/

/-- Outcome of one `read(0, &buf, sizeof buf)`: the return value and, when it
is positive, the byte stored in `buf`. -/
structure ReadRes where
  ret : Int
  byte : Nat
deriving DecidableEq, Repr

/-- Outcome of one `read(tty, &bigbuf, sizeof bigbuf)` in the forked reader:
the return value and the value of `errno` the code observes after the call. -/
structure TtyRead where
  nread : Int
  errno : Int
deriving DecidableEq, Repr

/-- Calls logged by the model of `vzcon_attach`, in program order. -/
inductive Event where
  | raw_on
  | tty_write (b : Nat)
  | sak
  | kill
  | waitpid
  | raw_off
deriving DecidableEq, Repr

/-- The way control leaves the `while (!child_term)` loop. -/
inductive Exit where
  | detach_dot
  | detach_comma
  | child_term
  | read_err
  | write_err
deriving DecidableEq, Repr

/-- Host terminal: its current attributes and the static copy `s_tios`. -/
structure Term (T : Type) where
  tios : T
  s_tios : T

/-- Everything `vzcon_attach` obtains from outside.  `T` is `struct termios`. -/
structure Env (T : Type) where
  /-- whether the build defines `VZ8` -/
  vz8 : Bool
  /-- the argument `ntty` -/
  ntty : Int
  /-- the indeterminate value the uninitialised local `ret` holds -/
  ret0 : Int
  /-- the constant of `vzerror.h` -/
  VZ_RESOURCE_ERROR : Int
  /-- result of `fork()` -/
  pid : Int
  /-- the libc function `cfmakeraw` -/
  cfmakeraw : T → T
  /-- `tcgetattr(0, &tios) != -1` in `raw_on` -/
  tcgetattr_ok : Bool
  /-- `tcsetattr(0, TCSADRAIN, &tios) != -1` in `raw_on` -/
  tcsetattr_raw_ok : Bool
  /-- `tcsetattr(0, TCSADRAIN, &s_tios) != -1` in `raw_off` -/
  tcsetattr_restore_ok : Bool
  /-- results of the successive reads of descriptor 0; once the list is
  used up the input is at its end and `read` returns 0 -/
  stdin : List ReadRes
  /-- return value of the k-th `write(tty, ...)` of the primary loop -/
  tty_write : Nat → Int
  /-- value of `child_term` seen by the k-th evaluation of the loop condition -/
  child_term : Nat → Bool
  /-- how many times `waitpid` fails with `EINTR` before its last call -/
  wait_eintr : Nat
  /-- results of the successive reads of the forked reader -/
  tty_read : List TtyRead
  /-- return value of the k-th `write(1, ...)` of the forked reader -/
  stdout_write : Nat → Int

/-- Local state of the primary loop. -/
structure Relay where
  after_enter : Bool
  stdin : List ReadRes
  nwrite : Nat
  ntest : Nat
  trace : List Event
deriving DecidableEq, Repr

/-- Result of one pass through the loop body. -/
inductive Step where
  | next (s : Relay)
  | leave (how : Exit) (s : Relay)
deriving DecidableEq, Repr

/-- How a call of `vzcon_attach` ends in the calling process image. -/
inductive Outcome where
  | returned (ret : Int)
  | exited (status : Int)
  | running
deriving DecidableEq, Repr

/-- Observable result of `vzcon_attach`. -/
structure Result (T : Type) where
  outcome : Outcome
  how : Option Exit
  trace : List Event
  term : Term T

/-! ## `raw_on` and `raw_off` -/

/-- Model of `raw_on`. -/
def raw_on {T : Type} (E : Env T) (t : Term T) : Term T :=
  if E.tcgetattr_ok then
    if E.tcsetattr_raw_ok then { tios := E.cfmakeraw t.tios, s_tios := t.tios }
    else { tios := t.tios, s_tios := t.tios }
  else t

/-- Model of `raw_off`. -/
def raw_off {T : Type} (E : Env T) (t : Term T) : Term T :=
  if E.tcsetattr_restore_ok then { tios := t.s_tios, s_tios := t.s_tios } else t

/-! ## The forked reader -/

/-- Model of the `while (1)` loop run by the child of `fork()`.  The result is
the exit status, or `none` while the loop is still reading after all the
supplied read results. -/
def child (stdout_write : Nat → Int) : List TtyRead → Nat → Option Int
  | [], _ => none
  | r :: rs, k =>
    if r.nread ≤ 0 then
      if r.errno = EINTR ∨ r.errno = EAGAIN then child stdout_write rs k
      else if r.nread < 0 then some 1
      else some (if r.nread < 0 then 2 else 0)
    else if stdout_write k < 0 then some 1
    else child stdout_write rs (k + 1)

/-! ## The primary loop -/

/-- Model of `TREAD(buf)`: `none` stands for `goto err`. -/
def TREAD (s : Relay) : Option (Nat × Relay) :=
  match s.stdin with
  | [] => none
  | r :: rest => if r.ret ≤ 0 then none else some (r.byte, { s with stdin := rest })

/-- Model of `TWRITE(b)`: the call is logged; the flag tells whether `write`
returned a positive count (`false` stands for `goto err`). -/
def TWRITE {T : Type} (E : Env T) (b : Nat) (s : Relay) : Bool × Relay :=
  (decide (0 < E.tty_write s.nwrite),
   { s with nwrite := s.nwrite + 1, trace := s.trace ++ [Event.tty_write b] })

/-- Lines 221-222: `TWRITE(buf); after_enter = (buf == enter);`. -/
def forward {T : Type} (E : Env T) (b : Nat) (s : Relay) : Step :=
  match TWRITE E b s with
  | (false, s1) => Step.leave Exit.write_err s1
  | (true, s1) => Step.next { s1 with after_enter := decide (b = enter) }

/-- Lines 202-222: one pass through the body of `while (!child_term)`. -/
def body {T : Type} (E : Env T) (s : Relay) : Step :=
  match TREAD s with
  | none => Step.leave Exit.read_err s
  | some (b, s1) =>
    if b = esc ∧ s1.after_enter = true then
      match TREAD s1 with
      | none => Step.leave Exit.read_err s1
      | some (c, s2) =>
        if c = dot then
          Step.leave Exit.detach_dot
            (if E.vz8 = false ∧ 1 < E.ntty then { s2 with trace := s2.trace ++ [Event.sak] }
             else s2)
        else if c = comma then Step.leave Exit.detach_comma s2
        else
          match TWRITE E esc s2 with
          | (false, s3) => Step.leave Exit.write_err s3
          | (true, s3) => forward E c s3
    else forward E b s1

/-- The loop `while (!child_term) { ... }`, run for at most `fuel` passes. -/
def loop {T : Type} (E : Env T) : Nat → Relay → Option (Exit × Relay)
  | 0, _ => none
  | fuel + 1, s =>
    if E.child_term s.ntest = true then some (Exit.child_term, s)
    else
      match body E { s with ntest := s.ntest + 1 } with
      | Step.next s1 => loop E fuel s1
      | Step.leave how s1 => some (how, s1)

/-- Whether the exit passes through the label `out`, where `ret = 0` is executed. -/
def Exit.via_out : Exit → Bool
  | Exit.detach_dot => true
  | Exit.detach_comma => true
  | Exit.child_term => true
  | Exit.read_err => false
  | Exit.write_err => false

/-- Lines 227-231: `kill`, the `waitpid` retry loop, `raw_off`. -/
def teardown (wait_eintr : Nat) : List Event :=
  Event.kill :: (List.replicate (wait_eintr + 1) Event.waitpid ++ [Event.raw_off])

/-- Model of `vzcon_attach`, from `fork()` on (the container terminal `tty` is
whichever descriptor line 150 or 152 stored).  Every pass of the loop consumes
a read result or leaves, so `stdin.length + 1` passes are enough; the result
is `none` only if they were not, which `vzcon_attach_shape` excludes. -/
def vzcon_attach {T : Type} (E : Env T) (t : Term T) : Option (Result T) :=
  if E.pid < 0 then
    some { outcome := Outcome.returned E.VZ_RESOURCE_ERROR, how := none, trace := [], term := t }
  else if E.pid = 0 then
    some { outcome := (match child E.stdout_write E.tty_read 0 with
                       | some st => Outcome.exited st
                       | none => Outcome.running),
           how := none, trace := [], term := t }
  else
    match loop E (E.stdin.length + 1)
        { after_enter := false, stdin := E.stdin, nwrite := 0, ntest := 0,
          trace := [Event.raw_on] } with
    | none => none
    | some (how, s) =>
      some { outcome := Outcome.returned (if how.via_out = true then 0 else E.ret0),
             how := some how,
             trace := s.trace ++ teardown E.wait_eintr,
             term := raw_off E (raw_on E t) }

/-- The bytes passed to `write(tty, ...)`, in call order. -/
def written : List Event → List Nat
  | [] => []
  | Event.tty_write b :: es => b :: written es
  | _ :: es => written es

/-- A read of descriptor 0 that delivers the byte `b`. -/
def key (b : Nat) : ReadRes := { ret := 1, byte := b }

/-! ## Pseudoterminal provisioning -/

/-- Calls logged by the models of `vzcon_start` and `vzcon_start_vz7`, in
program order.  `action dev minor` is the `SET_CONSOLE` action script with
`START_CONSOLE_ON_DEV=dev` and, in the numbered-terminal variant,
`START_CONSOLE_MINOR=minor`; the `TERM` entry is left out. -/
inductive PEvent where
  | getgrnam
  | open_ns
  | enter_mnt_ns
  | open_ptmx
  | grantpt
  | unlockpt
  | ptsname_r
  | open_slave
  | setns
  | close_ns
  | action (dev : String) (minor : Option Int)
deriving DecidableEq, Repr

/-- Everything the provisioning functions obtain from outside. -/
structure StartEnv where
  /-- the constant of `vzerror.h` -/
  VZ_VE_NOT_RUNNING : Int
  /-- `env_is_running(ctid)` is non-zero -/
  running : Bool
  /-- `getgrnam("")` returned a non-null pointer -/
  getgrnam_found : Bool
  /-- result of `open("/proc/self/ns/mnt", O_RDONLY)` -/
  old_ns : Int
  /-- result of `vzctl2_enter_mnt_ns(h)` -/
  enter_mnt_ns : Int
  /-- result of `open("/dev/ptmx", O_RDWR | O_NOCTTY)` -/
  master_fd : Int
  /-- result of `grantpt(master_fd)` -/
  grantpt : Int
  /-- result of `unlockpt(master_fd)` -/
  unlockpt : Int
  /-- result of `ptsname_r(master_fd, tty_path_buf, ...)` -/
  ptsname_r : Int
  /-- the path `ptsname_r` stores in `tty_path_buf` -/
  pts_name : String
  /-- result of `open(tty_path_buf, O_RDWR | O_NOCTTY)` -/
  slave_fd : Int
  /-- result of `setns(old_ns, CLONE_NEWNS)` -/
  setns : Int
  /-- result of `vzctl2_env_exec_action_script(h, "SET_CONSOLE", ...)` -/
  action : Int
  /-- the argument `tty_fd` is not null -/
  tty_fd_ptr : Bool
  /-- the argument `tty_path` is not null -/
  tty_path_ptr : Bool

/-- Observable result of a provisioning call: the return value, the values
stored through `tty_fd` and `tty_path` (`none` when nothing is stored) and the
calls made. -/
structure StartResult where
  ret : Int
  tty_fd : Option Int
  tty_path : Option String
  trace : List PEvent
deriving DecidableEq, Repr

/-- A return that stores nothing through the output pointers. -/
def StartResult.fail (ret : Int) (trace : List PEvent) : StartResult :=
  { ret := ret, tty_fd := none, tty_path := none, trace := trace }

/-- Model of `vzcon_start`. -/
def vzcon_start (E : StartEnv) : StartResult :=
  if E.running = false then StartResult.fail E.VZ_VE_NOT_RUNNING []
  else if E.getgrnam_found = true then StartResult.fail (-1) [PEvent.getgrnam]
  else if E.old_ns = -1 then StartResult.fail (-1) [PEvent.getgrnam, PEvent.open_ns]
  else if E.enter_mnt_ns ≠ 0 then
    StartResult.fail (-1) [PEvent.getgrnam, PEvent.open_ns, PEvent.enter_mnt_ns]
  else if E.master_fd = -1 then
    StartResult.fail (-1)
      [PEvent.getgrnam, PEvent.open_ns, PEvent.enter_mnt_ns, PEvent.open_ptmx]
  else if E.grantpt ≠ 0 then
    StartResult.fail (-1)
      [PEvent.getgrnam, PEvent.open_ns, PEvent.enter_mnt_ns, PEvent.open_ptmx, PEvent.grantpt]
  else if E.unlockpt ≠ 0 then
    StartResult.fail (-1)
      [PEvent.getgrnam, PEvent.open_ns, PEvent.enter_mnt_ns, PEvent.open_ptmx, PEvent.grantpt,
       PEvent.unlockpt]
  else if E.ptsname_r ≠ 0 then
    StartResult.fail (-1)
      [PEvent.getgrnam, PEvent.open_ns, PEvent.enter_mnt_ns, PEvent.open_ptmx, PEvent.grantpt,
       PEvent.unlockpt, PEvent.ptsname_r]
  else if E.slave_fd = -1 then
    StartResult.fail (-1)
      [PEvent.getgrnam, PEvent.open_ns, PEvent.enter_mnt_ns, PEvent.open_ptmx, PEvent.grantpt,
       PEvent.unlockpt, PEvent.ptsname_r, PEvent.open_slave]
  else if E.setns ≠ 0 then
    StartResult.fail 1
      [PEvent.getgrnam, PEvent.open_ns, PEvent.enter_mnt_ns, PEvent.open_ptmx, PEvent.grantpt,
       PEvent.unlockpt, PEvent.ptsname_r, PEvent.open_slave, PEvent.setns]
  else
    { ret := E.action
      tty_fd := if E.action = 0 ∧ E.tty_fd_ptr = true then some E.master_fd else none
      tty_path := if E.action = 0 ∧ E.tty_path_ptr = true then some E.pts_name else none
      trace :=
        [PEvent.getgrnam, PEvent.open_ns, PEvent.enter_mnt_ns, PEvent.open_ptmx, PEvent.grantpt,
         PEvent.unlockpt, PEvent.ptsname_r, PEvent.open_slave, PEvent.setns, PEvent.close_ns,
         PEvent.action (E.pts_name.drop 5) none] }

/-- Model of `vzcon_start_vz7`. -/
def vzcon_start_vz7 (E : StartEnv) (ntty : Int) : StartResult :=
  if ntty < 3 then StartResult.fail 0 []
  else if E.running = false then StartResult.fail E.VZ_VE_NOT_RUNNING []
  else
    { ret := E.action
      tty_fd := none
      tty_path :=
        if E.action = 0 ∧ E.tty_path_ptr = true then some ("/dev/tty" ++ toString ntty) else none
      trace := [PEvent.action (("/dev/tty" ++ toString ntty).drop 5) (some ntty)] }

/-- The pseudoterminal is allocated: every step of `vzcon_start` before the
action script succeeds. -/
def Allocated (E : StartEnv) : Prop :=
  E.running = true ∧ E.getgrnam_found = false ∧ E.old_ns ≠ -1 ∧ E.enter_mnt_ns = 0 ∧
    E.master_fd ≠ -1 ∧ E.grantpt = 0 ∧ E.unlockpt = 0 ∧ E.ptsname_r = 0 ∧ E.slave_fd ≠ -1 ∧
    E.setns = 0

/-- A running container in which every system call succeeds and the action
script returns `action`. -/
def sample_start (action : Int) : StartEnv :=
  { VZ_VE_NOT_RUNNING := 31, running := true, getgrnam_found := false, old_ns := 3,
    enter_mnt_ns := 0, master_fd := 4, grantpt := 0, unlockpt := 0, ptsname_r := 0,
    pts_name := "/dev/pts/0", slave_fd := 5, setns := 0, action := action,
    tty_fd_ptr := true, tty_path_ptr := true }

/-- Runs of `vzcon_start` on a running container in which one step after the
entry into the container mount namespace fails: `open("/dev/ptmx")`, `grantpt`,
`unlockpt`, `ptsname_r`, the open of the slave path. -/
def failing_after_enter : List StartEnv :=
  [{ sample_start 0 with master_fd := -1 }, { sample_start 0 with grantpt := -1 },
   { sample_start 0 with unlockpt := -1 }, { sample_start 0 with ptsname_r := 1 },
   { sample_start 0 with slave_fd := -1 }]

/-! ## Auxiliary notions used in the statements -/

/-- All writes to the container terminal succeed and the termination flag is
never set. -/
def Quiet {T : Type} (E : Env T) : Prop :=
  (∀ k, 0 < E.tty_write k) ∧ (∀ k, E.child_term k = false)

/-- The byte remembered by `after_enter`, as a list in front of the pending input. -/
def seen (ae : Bool) : List Nat := if ae = true then [enter] else []

/-- The `TIOSAK` call made when the loop is left by `how`. -/
def sak_of {T : Type} (E : Env T) (how : Exit) : List Event :=
  if how = Exit.detach_dot ∧ E.vz8 = false ∧ 1 < E.ntty then [Event.sak] else []

/-- A session of the legacy build in the parent of a successful `fork()`: the
host input delivers the bytes `input` one per read and then ends, every write
succeeds, the termination flag stays clear, `ret` starts out as `ret0`.
Terminal attributes are numbers and `cfmakeraw` maps them to 0. -/
def sample_attach (input : List Nat) (ntty : Int) (ret0 : Int) : Env Nat :=
  { vz8 := false, ntty := ntty, ret0 := ret0, VZ_RESOURCE_ERROR := 7, pid := 1234,
    cfmakeraw := fun _ => 0, tcgetattr_ok := true, tcsetattr_raw_ok := true,
    tcsetattr_restore_ok := true, stdin := input.map key, tty_write := fun _ => 1,
    child_term := fun _ => false, wait_eintr := 0, tty_read := [],
    stdout_write := fun _ => 1 }

/-- A host terminal whose attributes are 9 and whose static copy is still 0. -/
def sample_term : Term Nat := { tios := 9, s_tios := 0 }

/-- The loop state `s` is reached from the start of the session by passes
that all went on: the reads `done` consumed so far all delivered a byte and
every byte was written, in order, by a write that succeeded; `after_enter` is
set only if the last of them is enter; the flag was clear at every test. -/
def Sound {T : Type} (E : Env T) (s : Relay) : Prop :=
  ∃ done : List ReadRes, E.stdin = done ++ s.stdin ∧ (∀ q ∈ done, 0 < q.ret) ∧
    s.trace = Event.raw_on :: done.map (fun q => Event.tty_write q.byte) ∧
    s.nwrite = done.length ∧ (∀ k < done.length, 0 < E.tty_write k) ∧
    (s.after_enter = true → ∃ pre n, done = pre ++ [⟨n, enter⟩]) ∧
    s.ntest ≤ done.length ∧ done.length ≤ 2 * s.ntest ∧
    (∀ k < s.ntest, E.child_term k = false)

/-- The trace `tr` of the loop ends with a `TIOSAK` that answers the command
'.': the reads that follow the written bytes are escape and '.', the last
written byte is an enter, all reads and writes up to there succeeded and the
flag was clear at each of the `m + 1` tests made. -/
def DotDetach {T : Type} (E : Env T) (tr : List Event) : Prop :=
  1 < E.ntty ∧
    ∃ (pre post : List ReadRes) (n1 n2 n3 : Int) (m : Nat),
      E.stdin = pre ++ ⟨n1, enter⟩ :: ⟨n2, esc⟩ :: ⟨n3, dot⟩ :: post ∧
      (∀ q ∈ pre, 0 < q.ret) ∧ 0 < n1 ∧ 0 < n2 ∧ 0 < n3 ∧
      tr = Event.raw_on :: (pre.map ReadRes.byte ++ [enter]).map Event.tty_write ++ [Event.sak] ∧
      (∀ k ≤ pre.length, 0 < E.tty_write k) ∧
      m ≤ pre.length + 1 ∧ pre.length + 1 ≤ 2 * m ∧ (∀ k ≤ m, E.child_term k = false)

/-! ## Lemmas about the primary loop -/

/-- A pass that reads a byte outside an escape sequence writes it and goes on. -/
theorem loop_forward {T : Type} (E : Env T) (hq : Quiet E) (fuel : Nat) (ae : Bool) (b : Nat)
    (rest : List ReadRes) (nw nt : Nat) (tr : List Event) (h : ¬ (b = esc ∧ ae = true)) :
    loop E (fuel + 1) ⟨ae, key b :: rest, nw, nt, tr⟩ =
      loop E fuel ⟨decide (b = enter), rest, nw + 1, nt + 1, tr ++ [Event.tty_write b]⟩ := by
  obtain ⟨hw, hc⟩ := hq
  simp [loop, body, TREAD, forward, TWRITE, key, hw, hc, h]

/-- A pass that reads escape after enter and then a byte that is no command
writes both and goes on. -/
theorem loop_literal {T : Type} (E : Env T) (hq : Quiet E) (fuel : Nat) (c : Nat)
    (rest : List ReadRes) (nw nt : Nat) (tr : List Event) (h1 : c ≠ dot) (h2 : c ≠ comma) :
    loop E (fuel + 1) ⟨true, key esc :: key c :: rest, nw, nt, tr⟩ =
      loop E fuel ⟨decide (c = enter), rest, nw + 2, nt + 1,
        tr ++ [Event.tty_write esc, Event.tty_write c]⟩ := by
  obtain ⟨hw, hc⟩ := hq
  simp [loop, body, TREAD, forward, TWRITE, key, hw, hc, h1, h2]

/-- A pass that reads escape after enter and then '.' or ',' leaves the loop. -/
theorem loop_command {T : Type} (E : Env T) (hq : Quiet E) (fuel : Nat) (c : Nat)
    (rest : List ReadRes) (nw nt : Nat) (tr : List Event) (h : c = dot ∨ c = comma) :
    loop E (fuel + 1) ⟨true, key esc :: key c :: rest, nw, nt, tr⟩ =
      some (if c = dot then Exit.detach_dot else Exit.detach_comma,
        ⟨true, rest, nw, nt + 1,
          tr ++ (if c = dot ∧ E.vz8 = false ∧ 1 < E.ntty then [Event.sak] else [])⟩) := by
  obtain ⟨hw, hc⟩ := hq
  rcases h with h | h <;> subst h <;> simp [loop, body, TREAD, key, hc]
  split <;> simp_all

/-- A pass whose first read delivers nothing leaves the loop by `goto err`. -/
theorem loop_stop {T : Type} (E : Env T) (hq : Quiet E) (fuel : Nat) (ae : Bool)
    (tail : List ReadRes) (htail : ∀ r ∈ tail.head?, r.ret ≤ 0)
    (nw nt : Nat) (tr : List Event) :
    loop E (fuel + 1) ⟨ae, tail, nw, nt, tr⟩ = some (Exit.read_err, ⟨ae, tail, nw, nt + 1, tr⟩) := by
  obtain ⟨hw, hc⟩ := hq
  cases tail with
  | nil => simp [loop, body, TREAD, hc]
  | cons r rs =>
    have hr : r.ret ≤ 0 := htail r (by simp)
    simp [loop, body, TREAD, hc, hr]

/-- Forwarding `b` keeps the pending input, with the remembered byte in front,
a final segment of what it was. -/
theorem seen_step (b : Nat) (ae : Bool) (l : List Nat) :
    seen (decide (b = enter)) ++ l <:+ seen ae ++ b :: l := by
  by_cases hb : b = enter
  · subst hb
    refine ⟨seen ae, ?_⟩
    simp [seen]
  · refine ⟨seen ae ++ [b], ?_⟩
    simp [seen, hb]

/-- Without enter followed by escape the loop writes the whole input and is
left by the first read that delivers nothing. -/
theorem loop_transparent {T : Type} (E : Env T) (hq : Quiet E)
    (tail : List ReadRes) (htail : ∀ r ∈ tail.head?, r.ret ≤ 0) :
    ∀ (input : List Nat) (fuel : Nat) (ae : Bool) (nw nt : Nat) (tr : List Event),
      input.length < fuel → ¬ [enter, esc] <:+: seen ae ++ input →
      ∃ s, loop E fuel ⟨ae, input.map key ++ tail, nw, nt, tr⟩ = some (Exit.read_err, s) ∧
        s.trace = tr ++ input.map Event.tty_write := by
  intro input
  induction input with
  | nil =>
    intro fuel ae nw nt tr hf _
    obtain ⟨f, rfl⟩ : ∃ f, fuel = f + 1 := ⟨fuel - 1, by simp at hf; omega⟩
    exact ⟨_, by simpa using loop_stop E hq f ae tail htail nw nt tr, by simp⟩
  | cons b rest ih =>
    intro fuel ae nw nt tr hf hclean
    obtain ⟨f, rfl⟩ : ∃ f, fuel = f + 1 := ⟨fuel - 1, by simp at hf; omega⟩
    have hne : ¬ (b = esc ∧ ae = true) := by
      rintro ⟨rfl, rfl⟩
      exact hclean ⟨[], rest, by simp [seen]⟩
    have hrest : ¬ [enter, esc] <:+: seen (decide (b = enter)) ++ rest := fun h =>
      hclean (h.trans (seen_step b ae rest).isInfix)
    obtain ⟨s, hs, htr⟩ := ih f (decide (b = enter)) (nw + 1) (nt + 1)
      (tr ++ [Event.tty_write b]) (by simp at hf; omega) hrest
    refine ⟨s, ?_, by simp [htr]⟩
    rw [← hs]
    simpa using loop_forward E hq f ae b (rest.map key ++ tail) nw nt tr hne



/-- The loop detaches at the first enter, escape, command byte, having written
the input in front of that escape. -/
theorem loop_detach {T : Type} (E : Env T) (hq : Quiet E) (c : Nat) (hcmd : c = dot ∨ c = comma)
    (post : List ReadRes) :
    ∀ (n : Nat) (pre : List Nat), pre.length ≤ n →
    ∀ (fuel : Nat) (ae : Bool) (nw nt : Nat) (tr : List Event),
      pre.length + 2 ≤ fuel →
      (∀ d, d = dot ∨ d = comma → ¬ [enter, esc, d] <:+: seen ae ++ (pre ++ [enter, esc])) →
      ∃ s, loop E fuel ⟨ae, pre.map key ++ key enter :: key esc :: key c :: post, nw, nt, tr⟩ =
            some (if c = dot then Exit.detach_dot else Exit.detach_comma, s) ∧
        s.trace = tr ++ (pre ++ [enter]).map Event.tty_write ++
            (if c = dot ∧ E.vz8 = false ∧ 1 < E.ntty then [Event.sak] else []) ∧
        s.stdin = post := by
  intro n
  induction n using Nat.strong_induction_on with
  | _ n ih =>
    intro pre hn fuel ae nw nt tr hf hfirst
    obtain ⟨f, rfl⟩ : ∃ f, fuel = f + 2 := ⟨fuel - 2, by omega⟩
    match pre, hn, hf, hfirst with
    | [], _, _, _ =>
      have h1 := loop_forward E hq (f + 1) ae enter (key esc :: key c :: post) nw nt tr (by simp)
      have h2 := loop_command E hq f c post (nw + 1) (nt + 1) (tr ++ [Event.tty_write enter]) hcmd
      simp only [decide_True] at h1
      rw [h2] at h1
      exact ⟨_, h1, by simp, rfl⟩
    | b :: rest, hn, hf, hfirst =>
      by_cases hb : b = esc ∧ ae = true
      · obtain ⟨rfl, rfl⟩ := hb
        match rest, hn, hf, hfirst with
        | [], _, _, _ =>
          have h1 := loop_literal E hq (f + 1) enter (key esc :: key c :: post) nw nt tr
            (by decide) (by decide)
          have h2 := loop_command E hq f c post (nw + 2) (nt + 1)
            (tr ++ [Event.tty_write esc, Event.tty_write enter]) hcmd
          simp only [decide_True] at h1
          rw [h2] at h1
          exact ⟨_, h1, by simp, rfl⟩
        | x :: rest2, hn, hf, hfirst =>
          have hx1 : x ≠ dot := fun h =>
            hfirst x (Or.inl h) ⟨[], rest2 ++ [enter, esc], by simp [seen]⟩
          have hx2 : x ≠ comma := fun h =>
            hfirst x (Or.inr h) ⟨[], rest2 ++ [enter, esc], by simp [seen]⟩
          have hsuf : seen (decide (x = enter)) ++ (rest2 ++ [enter, esc]) <:+
              seen true ++ (esc :: x :: rest2 ++ [enter, esc]) :=
            (seen_step x false (rest2 ++ [enter, esc])).trans ⟨[enter, esc], by simp [seen]⟩
          obtain ⟨s, hs, htr, hin⟩ := ih (n - 2) (by simp at hn; omega) rest2
            (by simp at hn; omega) (f + 1) (decide (x = enter)) (nw + 2) (nt + 1)
            (tr ++ [Event.tty_write esc, Event.tty_write x]) (by simp at hf; omega)
            (fun d hd h => hfirst d hd (h.trans hsuf.isInfix))
          refine ⟨s, ?_, by simp [htr], hin⟩
          rw [← hs]
          simpa using loop_literal E hq (f + 1) x
            (rest2.map key ++ key enter :: key esc :: key c :: post) nw nt tr hx1 hx2
      · obtain ⟨s, hs, htr, hin⟩ := ih (n - 1) (by simp at hn; omega) rest
          (by simp at hn; omega) (f + 1) (decide (b = enter)) (nw + 1) (nt + 1)
          (tr ++ [Event.tty_write b]) (by simp at hf; omega)
          (fun d hd h => hfirst d hd
            (h.trans (seen_step b ae (rest ++ [enter, esc])).isInfix))
        refine ⟨s, ?_, by simp [htr], hin⟩
        rw [← hs]
        simpa using loop_forward E hq (f + 1) ae b
          (rest.map key ++ key enter :: key esc :: key c :: post) nw nt tr hb



/-- A pass that goes on has consumed input and has only written bytes. -/
theorem body_next {T : Type} (E : Env T) (s s1 : Relay) (h : body E s = Step.next s1) :
    s1.stdin.length < s.stdin.length ∧ s1.ntest = s.ntest ∧
      ∃ ws : List Nat, s1.trace = s.trace ++ ws.map Event.tty_write := by
  obtain ⟨ae, inp, nw, nt, tr⟩ := s
  cases inp with
  | nil => simp [body, TREAD] at h
  | cons r rest =>
    by_cases hr : r.ret ≤ 0
    · simp [body, TREAD, hr] at h
    by_cases hb : r.byte = esc ∧ ae = true
    · cases rest with
      | nil => simp [body, TREAD, hr, hb] at h
      | cons r2 rest2 =>
        by_cases hr2 : r2.ret ≤ 0
        · simp [body, TREAD, hr, hb, hr2] at h
        by_cases hd : r2.byte = dot
        · simp [body, TREAD, hr, hb, hr2, hd] at h
        by_cases hc : r2.byte = comma
        · simp [body, TREAD, hr, hb, hr2, hd, hc] at h
        by_cases hw1 : 0 < E.tty_write nw
        · by_cases hw2 : 0 < E.tty_write (nw + 1)
          · simp [body, TREAD, hr, hb, hr2, hd, hc, forward, TWRITE, hw1, hw2] at h
            subst h
            exact ⟨by simp only [List.length_cons]; omega, rfl, [esc, r2.byte], by simp⟩
          · simp [body, TREAD, hr, hb, hr2, hd, hc, forward, TWRITE, hw1, hw2] at h
        · simp [body, TREAD, hr, hb, hr2, hd, hc, forward, TWRITE, hw1] at h
    · by_cases hw1 : 0 < E.tty_write nw
      · simp [body, TREAD, hr, hb, forward, TWRITE, hw1] at h
        subst h
        exact ⟨by simp, rfl, [r.byte], by simp⟩
      · simp [body, TREAD, hr, hb, forward, TWRITE, hw1] at h

/-- A pass that leaves has written bytes and then, at most, issued `TIOSAK`. -/
theorem body_leave {T : Type} (E : Env T) (s s1 : Relay) (how : Exit)
    (h : body E s = Step.leave how s1) :
    how ≠ Exit.child_term ∧
      ∃ ws : List Nat, s1.trace = s.trace ++ ws.map Event.tty_write ++ sak_of E how := by
  obtain ⟨ae, inp, nw, nt, tr⟩ := s
  cases inp with
  | nil =>
    simp [body, TREAD] at h
    obtain ⟨rfl, rfl⟩ := h
    exact ⟨by decide, [], by simp [sak_of]⟩
  | cons r rest =>
    by_cases hr : r.ret ≤ 0
    · simp [body, TREAD, hr] at h
      obtain ⟨rfl, rfl⟩ := h
      exact ⟨by decide, [], by simp [sak_of]⟩
    by_cases hb : r.byte = esc ∧ ae = true
    · cases rest with
      | nil =>
        simp [body, TREAD, hr, hb] at h
        obtain ⟨rfl, rfl⟩ := h
        exact ⟨by decide, [], by simp [sak_of]⟩
      | cons r2 rest2 =>
        by_cases hr2 : r2.ret ≤ 0
        · simp [body, TREAD, hr, hb, hr2] at h
          obtain ⟨rfl, rfl⟩ := h
          exact ⟨by decide, [], by simp [sak_of]⟩
        by_cases hd : r2.byte = dot
        · simp [body, TREAD, hr, hb, hr2, hd] at h
          obtain ⟨rfl, rfl⟩ := h
          refine ⟨by decide, [], ?_⟩
          by_cases hs : E.vz8 = false ∧ 1 < E.ntty
          · simp [sak_of, hs]
          · simp [sak_of, hs]
        by_cases hc : r2.byte = comma
        · simp [body, TREAD, hr, hb, hr2, hd, hc] at h
          obtain ⟨rfl, rfl⟩ := h
          exact ⟨by decide, [], by simp [sak_of]⟩
        by_cases hw1 : 0 < E.tty_write nw
        · by_cases hw2 : 0 < E.tty_write (nw + 1)
          · simp [body, TREAD, hr, hb, hr2, hd, hc, forward, TWRITE, hw1, hw2] at h
          · simp [body, TREAD, hr, hb, hr2, hd, hc, forward, TWRITE, hw1, hw2] at h
            obtain ⟨rfl, rfl⟩ := h
            exact ⟨by decide, [esc, r2.byte], by simp [sak_of]⟩
        · simp [body, TREAD, hr, hb, hr2, hd, hc, forward, TWRITE, hw1] at h
          obtain ⟨rfl, rfl⟩ := h
          exact ⟨by decide, [esc], by simp [sak_of]⟩
    · by_cases hw1 : 0 < E.tty_write nw
      · simp [body, TREAD, hr, hb, forward, TWRITE, hw1] at h
      · simp [body, TREAD, hr, hb, forward, TWRITE, hw1] at h
        obtain ⟨rfl, rfl⟩ := h
        exact ⟨by decide, [r.byte], by simp [sak_of]⟩

/-- With more fuel than pending reads the loop ends; it has written bytes and
then, at most, issued `TIOSAK`. -/
theorem loop_shape {T : Type} (E : Env T) :
    ∀ (fuel : Nat) (s : Relay), s.stdin.length < fuel →
      ∃ how s1, loop E fuel s = some (how, s1) ∧
        ∃ ws : List Nat, s1.trace = s.trace ++ ws.map Event.tty_write ++ sak_of E how := by
  intro fuel
  induction fuel with
  | zero => intro s hs; omega
  | succ f ih =>
    intro s hs
    by_cases hc : E.child_term s.ntest = true
    · exact ⟨Exit.child_term, s, by simp [loop, hc], [], by simp [sak_of]⟩
    · cases hb : body E { s with ntest := s.ntest + 1 } with
      | next s1 =>
        obtain ⟨hlen, _, ws, hws⟩ := body_next E _ s1 hb
        obtain ⟨how, s2, h2, ws2, hws2⟩ := ih s1 (by simp at hlen; omega)
        refine ⟨how, s2, by simp [loop, hc, hb, h2], ws ++ ws2, ?_⟩
        simp [hws2, hws]
      | leave how s1 =>
        obtain ⟨_, ws, hws⟩ := body_leave E _ s1 how hb
        exact ⟨how, s1, by simp [loop, hc, hb], ws, by simpa using hws⟩


/-! ## Lemmas about `vzcon_attach` as a whole -/

theorem written_append (a b : List Event) : written (a ++ b) = written a ++ written b := by
  induction a with
  | nil => rfl
  | cons e es ih => cases e <;> simp [written, ih]

theorem written_map (l : List Nat) : written (l.map Event.tty_write) = l := by
  induction l with
  | nil => rfl
  | cons b bs ih => simp [written, ih]

theorem written_teardown (n : Nat) : written (teardown n) = [] := by
  induction n with
  | zero => rfl
  | succ n ih =>
    simp only [teardown, written, List.replicate_succ, List.cons_append] at ih ⊢
    exact ih

theorem written_sak (p : Prop) [Decidable p] :
    written (if p then [Event.sak] else []) = [] := by
  split <;> rfl

/-- The result of `vzcon_attach` in the parent, from the result of the loop. -/
theorem vzcon_attach_parent {T : Type} (E : Env T) (t : Term T) (hpid : 0 < E.pid)
    (how : Exit) (s : Relay)
    (h : loop E (E.stdin.length + 1) ⟨false, E.stdin, 0, 0, [Event.raw_on]⟩ = some (how, s)) :
    vzcon_attach E t =
      some { outcome := Outcome.returned (if how.via_out = true then 0 else E.ret0),
             how := some how,
             trace := s.trace ++ teardown E.wait_eintr,
             term := raw_off E (raw_on E t) } := by
  have h1 : ¬ E.pid < 0 := by omega
  have h2 : ¬ E.pid = 0 := by omega
  simp [vzcon_attach, h1, h2, h]

/-- An input that contains enter, escape, command byte has a first occurrence. -/
theorem first_occurrence (input : List Nat) :
    ∀ (n : Nat) (pre : List Nat) (c : Nat) (post : List Nat), pre.length = n →
      (c = dot ∨ c = comma) → input = pre ++ [enter, esc, c] ++ post →
      ∃ pre1 c1 post1, (c1 = dot ∨ c1 = comma) ∧ input = pre1 ++ [enter, esc, c1] ++ post1 ∧
        ∀ d, d = dot ∨ d = comma → ¬ [enter, esc, d] <:+: pre1 ++ [enter, esc] := by
  intro n
  induction n using Nat.strong_induction_on with
  | _ n ih =>
    intro pre c post hn hc hin
    by_cases hfirst : ∀ d, d = dot ∨ d = comma → ¬ [enter, esc, d] <:+: pre ++ [enter, esc]
    · exact ⟨pre, c, post, hc, hin, hfirst⟩
    · push_neg at hfirst
      obtain ⟨d, hd, s, u, hsu⟩ := hfirst
      have hlen : s.length < n := by
        have := congrArg List.length hsu
        simp at this
        omega
      refine ih s.length hlen s d (u ++ c :: post) rfl hd ?_
      have : pre ++ [enter, esc, c] ++ post = (pre ++ [enter, esc]) ++ c :: post := by simp
      rw [hin, this, ← hsu]
      simp


/-- The sample sessions are quiet. -/
theorem quiet_sample (input : List Nat) (ntty ret0 : Int) :
    Quiet (sample_attach input ntty ret0) :=
  ⟨fun _ => by simp [sample_attach], fun _ => rfl⟩

/-! ## The claims -/

/-- C1: in the parent of a successful fork, when every read of the host input
delivers one byte, every write to the container terminal succeeds and the
termination flag stays clear, an input that contains enter, escape and then
'.' or ',' makes `vzcon_attach` detach at the first such occurrence: it
returns 0 and the bytes written to the container terminal are exactly the input
bytes in front of that escape; the escape, the command byte and all later
bytes are not written. -/
theorem escape_detach {T : Type} (E : Env T) (t : Term T) (hpid : 0 < E.pid) (hq : Quiet E)
    (input : List Nat) (hin : E.stdin = input.map key)
    (hpat : ∃ c, (c = dot ∨ c = comma) ∧ [enter, esc, c] <:+: input) :
    ∃ pre c post, (c = dot ∨ c = comma) ∧ input = pre ++ [enter, esc, c] ++ post ∧
      (∀ d, d = dot ∨ d = comma → ¬ [enter, esc, d] <:+: pre ++ [enter, esc]) ∧
      ∃ r, vzcon_attach E t = some r ∧ r.outcome = Outcome.returned 0 ∧
        r.how = some (if c = dot then Exit.detach_dot else Exit.detach_comma) ∧
        written r.trace = pre ++ [enter] := by
  obtain ⟨c0, hc0, s0, u0, h0⟩ := hpat
  obtain ⟨pre, c, post, hc, hsplit, hfirst⟩ :=
    first_occurrence input s0.length s0 c0 u0 rfl hc0 h0.symm
  refine ⟨pre, c, post, hc, hsplit, hfirst, ?_⟩
  have hstdin : E.stdin = pre.map key ++ key enter :: key esc :: key c :: post.map key := by
    rw [hin, hsplit]
    simp
  obtain ⟨s, hs, htr, _⟩ := loop_detach E hq c hc (post.map key) pre.length pre le_rfl
    (E.stdin.length + 1) false 0 0 [Event.raw_on]
    (by rw [hstdin]; simp) (by simpa [seen] using hfirst)
  rw [← hstdin] at hs
  refine ⟨_, vzcon_attach_parent E t hpid _ s hs, ?_, rfl, ?_⟩
  · rcases hc with rfl | rfl <;> simp [Exit.via_out]
  · simp only [htr, written_append, written_map, written_teardown, written_sak]
    simp [written]

/-- Witness of C1 on the input `a`, enter, escape, '.', `b`. -/
theorem escape_detach_witness :
    ∃ pre c post, (c = dot ∨ c = comma) ∧ [97, 13, 27, 46, 98] = pre ++ [enter, esc, c] ++ post ∧
      (∀ d, d = dot ∨ d = comma → ¬ [enter, esc, d] <:+: pre ++ [enter, esc]) ∧
      ∃ r, vzcon_attach (sample_attach [97, 13, 27, 46, 98] 2 0) sample_term = some r ∧
        r.outcome = Outcome.returned 0 ∧
        r.how = some (if c = dot then Exit.detach_dot else Exit.detach_comma) ∧
        written r.trace = pre ++ [enter] :=
  escape_detach (sample_attach [97, 13, 27, 46, 98] 2 0) sample_term (by decide)
    (quiet_sample _ _ _) [97, 13, 27, 46, 98] rfl ⟨dot, Or.inl rfl, by decide⟩

/-- C2: in the parent of a successful fork, when every write succeeds and the
termination flag stays clear, an input without an enter immediately followed by
an escape is written to the container terminal byte for byte, in order, up to
the first read that delivers nothing; the loop is left only by that read, never
by a detach. -/
theorem transparency {T : Type} (E : Env T) (t : Term T) (hpid : 0 < E.pid) (hq : Quiet E)
    (input : List Nat) (tail : List ReadRes) (htail : ∀ r ∈ tail.head?, r.ret ≤ 0)
    (hin : E.stdin = input.map key ++ tail) (hclean : ¬ [enter, esc] <:+: input) :
    ∃ r, vzcon_attach E t = some r ∧ r.how = some Exit.read_err ∧ written r.trace = input := by
  obtain ⟨s, hs, htr⟩ := loop_transparent E hq tail htail input (E.stdin.length + 1) false 0 0
    [Event.raw_on] (by rw [hin]; simp; omega) (by simpa [seen] using hclean)
  rw [← hin] at hs
  refine ⟨_, vzcon_attach_parent E t hpid _ s hs, rfl, ?_⟩
  simp only [htr, written_append, written_map, written_teardown]
  simp [written]

/-- Witness of C2: escape and '.' at the very start of the session, then enter. -/
theorem transparency_witness :
    ∃ r, vzcon_attach (sample_attach [27, 46, 13] 2 0) sample_term = some r ∧
      r.how = some Exit.read_err ∧ written r.trace = [27, 46, 13] :=
  transparency (sample_attach [27, 46, 13] 2 0) sample_term (by decide) (quiet_sample _ _ _)
    [27, 46, 13] [] (by simp) rfl (by decide)

/-- C3: when the loop body reads escape while `after_enter` is set and the next
byte read is `x`, neither '.' nor ',', and both writes succeed, the pass writes
escape and then `x`, once each, does not leave the loop, and sets `after_enter`
to whether `x` is enter.  Hence the input enter, escape, enter, escape, '.'
detaches at the second escape, after enter, escape, enter have been written. -/
theorem literal_escape {T : Type} (E : Env T) (s : Relay) (x : Nat) (rest : List ReadRes)
    (hae : s.after_enter = true) (hin : s.stdin = key esc :: key x :: rest)
    (hx1 : x ≠ dot) (hx2 : x ≠ comma)
    (hw1 : 0 < E.tty_write s.nwrite) (hw2 : 0 < E.tty_write (s.nwrite + 1)) :
    body E s = Step.next
        { after_enter := decide (x = enter), stdin := rest, nwrite := s.nwrite + 2,
          ntest := s.ntest, trace := s.trace ++ [Event.tty_write esc, Event.tty_write x] } ∧
      ∀ (t : Term T) (post : List ReadRes), 0 < E.pid → Quiet E →
        E.stdin = [enter, esc, enter, esc, dot].map key ++ post →
        ∃ r, vzcon_attach E t = some r ∧ r.outcome = Outcome.returned 0 ∧
          r.how = some Exit.detach_dot ∧ written r.trace = [enter, esc, enter] := by
  constructor
  · obtain ⟨ae, inp, nw, nt, tr⟩ := s
    simp only at hae hin hw1 hw2
    subst hae hin
    simp [body, TREAD, forward, TWRITE, key, hx1, hx2, hw1, hw2]
  · intro t post hpid hq hstdin
    obtain ⟨s1, hs, htr, _⟩ := loop_detach E hq dot (Or.inl rfl) post 2 [enter, esc] le_rfl
      (E.stdin.length + 1) false 0 0 [Event.raw_on] (by rw [hstdin]; simp)
      (by intro d hd; rcases hd with rfl | rfl <;> decide)
    have hstdin2 : E.stdin =
        [enter, esc].map key ++ key enter :: key esc :: key dot :: post := by
      rw [hstdin]; simp
    rw [← hstdin2] at hs
    refine ⟨_, vzcon_attach_parent E t hpid _ s1 hs, by simp [Exit.via_out], by simp, ?_⟩
    simp only [htr, written_append, written_map, written_teardown, written_sak]
    simp [written]

/-- Witness of C3 with `x` = enter, on the input enter, escape, enter, escape, '.'. -/
theorem literal_escape_witness :
    body (sample_attach [13, 27, 13, 27, 46] 2 0)
        ⟨true, [key 27, key 13, key 27, key 46], 1, 1, [Event.raw_on, Event.tty_write 13]⟩ =
      Step.next ⟨true, [key 27, key 46], 3, 1,
        [Event.raw_on, Event.tty_write 13, Event.tty_write 27, Event.tty_write 13]⟩ ∧
    ∃ r, vzcon_attach (sample_attach [13, 27, 13, 27, 46] 2 0) sample_term = some r ∧
      r.outcome = Outcome.returned 0 ∧ r.how = some Exit.detach_dot ∧
      written r.trace = [13, 27, 13] :=
  have h := literal_escape (sample_attach [13, 27, 13, 27, 46] 2 0)
    ⟨true, [key 27, key 13, key 27, key 46], 1, 1, [Event.raw_on, Event.tty_write 13]⟩
    13 [key 27, key 46] rfl rfl (by decide) (by decide) (by decide) (by decide)
  ⟨h.1, h.2 sample_term [] (by decide) (quiet_sample _ _ _) rfl⟩


theorem count_sak_map (ws : List Nat) : (ws.map Event.tty_write).count Event.sak = 0 := by
  rw [List.count_eq_zero]
  simp

theorem count_sak_teardown (n : Nat) : (teardown n).count Event.sak = 0 := by
  rw [List.count_eq_zero]
  simp [teardown]

theorem count_raw_map (ws : List Nat) :
    (ws.map Event.tty_write).count Event.raw_on = 0 ∧
      (ws.map Event.tty_write).count Event.raw_off = 0 := by
  constructor <;> rw [List.count_eq_zero] <;> simp

theorem count_raw_sak_of {T : Type} (E : Env T) (how : Exit) :
    (sak_of E how).count Event.raw_on = 0 ∧ (sak_of E how).count Event.raw_off = 0 := by
  unfold sak_of
  split <;> simp

theorem count_raw_teardown (n : Nat) :
    (teardown n).count Event.raw_on = 0 ∧ (teardown n).count Event.raw_off = 1 := by
  constructor
  · rw [List.count_eq_zero]
    simp [teardown]
  · have h : (List.replicate (n + 1) Event.waitpid).count Event.raw_off = 0 := by
      rw [List.count_eq_zero]
      simp
    simp [teardown, List.count_cons, h]

/-- Every call of `vzcon_attach` in the parent of a successful fork ends, and
its trace is `raw_on`, the writes, the possible `TIOSAK`, then the teardown. -/
theorem vzcon_attach_shape {T : Type} (E : Env T) (t : Term T) (hpid : 0 < E.pid) :
    ∃ (how : Exit) (ws : List Nat), vzcon_attach E t =
      some { outcome := Outcome.returned (if how.via_out = true then 0 else E.ret0),
             how := some how,
             trace := Event.raw_on :: ws.map Event.tty_write ++ sak_of E how ++
               teardown E.wait_eintr,
             term := raw_off E (raw_on E t) } := by
  obtain ⟨how, s, hs, ws, hws⟩ := loop_shape E (E.stdin.length + 1)
    ⟨false, E.stdin, 0, 0, [Event.raw_on]⟩ (by simp)
  refine ⟨how, ws, ?_⟩
  rw [vzcon_attach_parent E t hpid how s hs, hws]
  simp

theorem sak_not_mem_writes (done : List ReadRes) (ws : List Nat) :
    Event.sak ∉ Event.raw_on :: done.map (fun q => Event.tty_write q.byte) ++
      ws.map Event.tty_write := by
  simp

/-- A pass that goes on from a sound state, entered with the flag clear, ends in
a sound state. -/
theorem body_sound {T : Type} (E : Env T) (s s1 : Relay) (hs : Sound E s)
    (hct : E.child_term s.ntest = false)
    (h : body E { s with ntest := s.ntest + 1 } = Step.next s1) : Sound E s1 := by
  obtain ⟨ae, inp, nw, nt, tr⟩ := s
  obtain ⟨done, hin, hpos, htr, hnw, hwr, hae, hlo, hhi, hfl⟩ := hs
  simp only at hin htr hnw hae hlo hhi hfl hct
  subst htr hnw
  have hfl1 : ∀ k < nt + 1, E.child_term k = false := by
    intro k hk
    rcases Nat.lt_succ_iff_lt_or_eq.mp hk with h1 | rfl
    · exact hfl k h1
    · exact hct
  cases inp with
  | nil => simp [body, TREAD] at h
  | cons r rest =>
    by_cases hr : r.ret ≤ 0
    · simp [body, TREAD, hr] at h
    by_cases hb : r.byte = esc ∧ ae = true
    · cases rest with
      | nil => simp [body, TREAD, hr, hb] at h
      | cons r2 rest2 =>
        by_cases hr2 : r2.ret ≤ 0
        · simp [body, TREAD, hr, hb, hr2] at h
        by_cases hd : r2.byte = dot
        · simp [body, TREAD, hr, hb, hr2, hd] at h
        by_cases hc : r2.byte = comma
        · simp [body, TREAD, hr, hb, hr2, hd, hc] at h
        by_cases hw1 : 0 < E.tty_write done.length
        · by_cases hw2 : 0 < E.tty_write (done.length + 1)
          · simp [body, TREAD, hr, hb, hr2, hd, hc, forward, TWRITE, hw1, hw2] at h
            subst h
            refine ⟨done ++ [r, r2], by simp [hin], ?_, by simp [hb.1], by simp, ?_, ?_,
              by simp; omega, by simp; omega, hfl1⟩
            · intro q hq
              simp only [List.mem_append, List.mem_cons, List.mem_singleton,
                List.not_mem_nil, or_false] at hq
              rcases hq with hq | rfl | rfl
              · exact hpos q hq
              · omega
              · omega
            · intro k hk
              simp only [List.length_append, List.length_cons, List.length_singleton,
                List.length_nil] at hk
              by_cases h1 : k < done.length
              · exact hwr k h1
              · by_cases h2 : k = done.length
                · subst h2; exact hw1
                · have : k = done.length + 1 := by omega
                  subst this; exact hw2
            · intro hx
              simp only [decide_eq_true_eq] at hx
              refine ⟨done ++ [r], r2.ret, ?_⟩
              rw [← hx]
              simp
          · simp [body, TREAD, hr, hb, hr2, hd, hc, forward, TWRITE, hw1, hw2] at h
        · simp [body, TREAD, hr, hb, hr2, hd, hc, forward, TWRITE, hw1] at h
    · by_cases hw1 : 0 < E.tty_write done.length
      · simp [body, TREAD, hr, hb, forward, TWRITE, hw1] at h
        subst h
        refine ⟨done ++ [r], by simp [hin], ?_, by simp, by simp, ?_, ?_,
          by simp; omega, by simp; omega, hfl1⟩
        · intro q hq
          simp only [List.mem_append, List.mem_singleton] at hq
          rcases hq with hq | rfl
          · exact hpos q hq
          · omega
        · intro k hk
          simp only [List.length_append, List.length_singleton] at hk
          by_cases h1 : k < done.length
          · exact hwr k h1
          · have : k = done.length := by omega
            subst this; exact hw1
        · intro hx
          simp only [decide_eq_true_eq] at hx
          refine ⟨done, r.ret, ?_⟩
          rw [← hx]
      · simp [body, TREAD, hr, hb, forward, TWRITE, hw1] at h

/-- In the legacy build a pass that leaves from a sound state, entered with the
flag clear, has issued `TIOSAK` only in answer to the command '.'. -/
theorem body_sound_leave {T : Type} (E : Env T) (hvz : E.vz8 = false) (s s1 : Relay)
    (how : Exit) (hs : Sound E s) (hct : E.child_term s.ntest = false)
    (h : body E { s with ntest := s.ntest + 1 } = Step.leave how s1)
    (hsak : Event.sak ∈ s1.trace) : how = Exit.detach_dot ∧ DotDetach E s1.trace := by
  obtain ⟨ae, inp, nw, nt, tr⟩ := s
  obtain ⟨done, hin, hpos, htr, hnw, hwr, hae, hlo, hhi, hfl⟩ := hs
  simp only at hin htr hnw hae hlo hhi hfl hct
  subst htr hnw
  cases inp with
  | nil =>
    simp [body, TREAD] at h
    obtain ⟨rfl, rfl⟩ := h
    simp at hsak
  | cons r rest =>
    by_cases hr : r.ret ≤ 0
    · simp [body, TREAD, hr] at h
      obtain ⟨rfl, rfl⟩ := h
      simp at hsak
    by_cases hb : r.byte = esc ∧ ae = true
    · cases rest with
      | nil =>
        simp [body, TREAD, hr, hb] at h
        obtain ⟨rfl, rfl⟩ := h
        simp at hsak
      | cons r2 rest2 =>
        by_cases hr2 : r2.ret ≤ 0
        · simp [body, TREAD, hr, hb, hr2] at h
          obtain ⟨rfl, rfl⟩ := h
          simp at hsak
        by_cases hd : r2.byte = dot
        · by_cases hn : 1 < E.ntty
          · simp [body, TREAD, hr, hb, hr2, hd, hvz, hn] at h
            obtain ⟨rfl, rfl⟩ := h
            obtain ⟨pre, n, rfl⟩ := hae hb.2
            obtain ⟨n2, b2⟩ := r
            obtain ⟨n3, b3⟩ := r2
            simp only at hb hd hr hr2
            obtain ⟨rfl, _⟩ := hb
            subst hd
            refine ⟨rfl, hn, pre, rest2, n, n2, n3, nt, by simp [hin], ?_, ?_, by omega,
              by omega, by simp, ?_, by simpa using hlo, by simpa using hhi, ?_⟩
            · intro q hq
              exact hpos q (by simp [hq])
            · exact hpos ⟨n, enter⟩ (by simp)
            · intro k hk
              exact hwr k (by simp; omega)
            · intro k hk
              rcases Nat.lt_or_eq_of_le hk with h1 | rfl
              · exact hfl k h1
              · exact hct
          · simp [body, TREAD, hr, hb, hr2, hd, hvz, hn] at h
            obtain ⟨rfl, rfl⟩ := h
            simp at hsak
        by_cases hc : r2.byte = comma
        · simp [body, TREAD, hr, hb, hr2, hd, hc] at h
          obtain ⟨rfl, rfl⟩ := h
          simp at hsak
        by_cases hw1 : 0 < E.tty_write done.length
        · by_cases hw2 : 0 < E.tty_write (done.length + 1)
          · simp [body, TREAD, hr, hb, hr2, hd, hc, forward, TWRITE, hw1, hw2] at h
          · simp [body, TREAD, hr, hb, hr2, hd, hc, forward, TWRITE, hw1, hw2] at h
            obtain ⟨rfl, rfl⟩ := h
            simp at hsak
        · simp [body, TREAD, hr, hb, hr2, hd, hc, forward, TWRITE, hw1] at h
          obtain ⟨rfl, rfl⟩ := h
          simp at hsak
    · by_cases hw1 : 0 < E.tty_write done.length
      · simp [body, TREAD, hr, hb, forward, TWRITE, hw1] at h
      · simp [body, TREAD, hr, hb, forward, TWRITE, hw1] at h
        obtain ⟨rfl, rfl⟩ := h
        simp at hsak

/-- In the legacy build the loop, started in a sound state, issues `TIOSAK` only
in answer to the command '.'. -/
theorem loop_sound {T : Type} (E : Env T) (hvz : E.vz8 = false) :
    ∀ (fuel : Nat) (s s1 : Relay) (how : Exit), Sound E s →
      loop E fuel s = some (how, s1) → Event.sak ∈ s1.trace →
      how = Exit.detach_dot ∧ DotDetach E s1.trace := by
  intro fuel
  induction fuel with
  | zero => intro s s1 how _ h; simp [loop] at h
  | succ f ih =>
    intro s s1 how hs h hsak
    by_cases hc : E.child_term s.ntest = true
    · simp [loop, hc] at h
      obtain ⟨rfl, rfl⟩ := h
      obtain ⟨done, _, _, htr, _⟩ := hs
      rw [htr] at hsak
      simp at hsak
    · have hct : E.child_term s.ntest = false := by simpa using hc
      cases hb : body E { s with ntest := s.ntest + 1 } with
      | next s2 =>
        simp [loop, hct, hb] at h
        exact ih s2 s1 how (body_sound E s s2 hs hct hb) h hsak
      | leave how2 s2 =>
        simp [loop, hct, hb] at h
        obtain ⟨rfl, rfl⟩ := h
        exact body_sound_leave E hvz s s2 how2 hs hct hb hsak

/-- The state in which `vzcon_attach` enters the loop is sound. -/
theorem sound_start {T : Type} (E : Env T) :
    Sound E ⟨false, E.stdin, 0, 0, [Event.raw_on]⟩ :=
  ⟨[], by simp, by simp, by simp, by simp, by simp, by simp, by simp, by simp, by simp⟩

theorem sak_mem_teardown (n : Nat) : Event.sak ∉ teardown n := by
  simp [teardown]

/-- C4: in the legacy build (VZ8 undefined) every session of `vzcon_attach`
ends, and its trace is `raw_on`, the writes to the container terminal, at most
one `TIOSAK`, then the teardown.  `TIOSAK` is issued exactly when the loop is
left by the '.' command with `ntty` greater than 1, and only if the call
returns 0 and the host input reads enter, escape, '.' where the written bytes
end with that enter, with every read and write up to there successful and the
termination flag clear at every test; so no read error, write error or set flag
issues it.  When every read delivers one byte, every write succeeds and the
flag stays clear, the first enter, escape, `c` with `c` '.' or ',' decides:
`TIOSAK` is issued once, right before the teardown, if `c` is '.' and `ntty` is
greater than 1, and not at all if `c` is ',' or `ntty` is at most 1. -/
theorem secure_attention {T : Type} (E : Env T) (t : Term T) (hvz : E.vz8 = false)
    (hpid : 0 < E.pid) :
    ∃ (r : Result T) (ws : List Nat), vzcon_attach E t = some r ∧
      (r.trace = Event.raw_on :: ws.map Event.tty_write ++ teardown E.wait_eintr ∨
        r.trace = Event.raw_on :: ws.map Event.tty_write ++
          Event.sak :: teardown E.wait_eintr) ∧
      (Event.sak ∈ r.trace ↔ r.how = some Exit.detach_dot ∧ 1 < E.ntty) ∧
      (Event.sak ∈ r.trace → 1 < E.ntty ∧ r.outcome = Outcome.returned 0 ∧
        ∃ (pre post : List ReadRes) (n1 n2 n3 : Int) (m : Nat),
          E.stdin = pre ++ ⟨n1, enter⟩ :: ⟨n2, esc⟩ :: ⟨n3, dot⟩ :: post ∧
          (∀ q ∈ pre, 0 < q.ret) ∧ 0 < n1 ∧ 0 < n2 ∧ 0 < n3 ∧
          written r.trace = pre.map ReadRes.byte ++ [enter] ∧
          (∀ k ≤ pre.length, 0 < E.tty_write k) ∧
          m ≤ pre.length + 1 ∧ pre.length + 1 ≤ 2 * m ∧
          (∀ k ≤ m, E.child_term k = false)) ∧
      (Quiet E → ∀ (pre : List Nat) (c : Nat) (post : List Nat), (c = dot ∨ c = comma) →
        E.stdin = (pre ++ [enter, esc, c] ++ post).map key →
        (∀ d, d = dot ∨ d = comma → ¬ [enter, esc, d] <:+: pre ++ [enter, esc]) →
        r.trace = Event.raw_on :: (pre ++ [enter]).map Event.tty_write ++
            (if c = dot ∧ 1 < E.ntty then [Event.sak] else []) ++ teardown E.wait_eintr ∧
          r.trace.count Event.sak = (if c = dot ∧ 1 < E.ntty then 1 else 0)) := by
  obtain ⟨how, s, hs, ws, hws⟩ := loop_shape E (E.stdin.length + 1)
    ⟨false, E.stdin, 0, 0, [Event.raw_on]⟩ (by simp)
  have hsakof : sak_of E how =
      if how = Exit.detach_dot ∧ 1 < E.ntty then [Event.sak] else [] := by
    simp [sak_of, hvz]
  simp only [hsakof] at hws
  have hmem : Event.sak ∈ s.trace ↔ how = Exit.detach_dot ∧ 1 < E.ntty := by
    rw [hws]
    by_cases hc : how = Exit.detach_dot ∧ 1 < E.ntty
    · simp [hc]
    · simp [hc]
  have hmem2 : Event.sak ∈ s.trace ++ teardown E.wait_eintr ↔ Event.sak ∈ s.trace := by
    simp [sak_mem_teardown]
  refine ⟨_, ws, vzcon_attach_parent E t hpid how s hs, ?_, ?_, ?_, ?_⟩
  · simp only [hws]
    by_cases hc : how = Exit.detach_dot ∧ 1 < E.ntty
    · right; simp [hc]
    · left; simp [hc]
  · simp only [hmem2, hmem, Option.some.injEq]
  · intro hsak
    simp only [hmem2] at hsak
    obtain ⟨rfl, hn, pre, post, n1, n2, n3, m, h1, h2, h3, h4, h5, h6, h7, h8, h9, h10⟩ :=
      loop_sound E hvz _ _ s how (sound_start E) hs hsak
    refine ⟨hn, by simp [Exit.via_out], pre, post, n1, n2, n3, m, h1, h2, h3, h4, h5, ?_,
      h7, h8, h9, h10⟩
    simp only [h6, written_append, written_teardown, List.append_nil]
    have hw : written (Event.raw_on ::
        List.map Event.tty_write (pre.map ReadRes.byte ++ [enter])) =
        pre.map ReadRes.byte ++ [enter] := by
      show written (List.map Event.tty_write (pre.map ReadRes.byte ++ [enter])) = _
      exact written_map _
    rw [hw]
    simp [written]
  · intro hq pre c post hc hin hfirst
    have hstdin : E.stdin = pre.map key ++ key enter :: key esc :: key c :: post.map key := by
      rw [hin]; simp
    obtain ⟨s2, hs2, htr, _⟩ := loop_detach E hq c hc (post.map key) pre.length pre le_rfl
      (E.stdin.length + 1) false 0 0 [Event.raw_on]
      (by rw [hstdin]; simp) (by simpa [seen] using hfirst)
    rw [← hstdin, hs] at hs2
    simp only [Option.some.injEq, Prod.mk.injEq] at hs2
    obtain ⟨_, rfl⟩ := hs2
    simp only [hvz, true_and] at htr
    have hne : (Event.raw_on == Event.sak) = false := by decide
    refine ⟨by simp [htr], ?_⟩
    simp only [htr, List.count_cons, List.count_append, count_sak_map, count_sak_teardown,
      hne, List.singleton_append, List.count_nil]
    by_cases hcd : c = dot ∧ 1 < E.ntty
    · simp [hcd]
    · simp [hcd]

/-- Witness of C4 on terminal 2: enter, escape, '.' issues `TIOSAK` once, right
before the teardown; enter, escape, ',' does not issue it. -/
theorem secure_attention_witness :
    (∃ r, vzcon_attach (sample_attach [13, 27, 46] 2 0) sample_term = some r ∧
      r.trace = [Event.raw_on, Event.tty_write 13, Event.sak, Event.kill, Event.waitpid,
        Event.raw_off] ∧ r.trace.count Event.sak = 1) ∧
    (∃ r, vzcon_attach (sample_attach [13, 27, 44] 2 0) sample_term = some r ∧
      r.trace = [Event.raw_on, Event.tty_write 13, Event.kill, Event.waitpid,
        Event.raw_off] ∧ r.trace.count Event.sak = 0) := by
  have hfirst : ∀ d, d = dot ∨ d = comma → ¬ [enter, esc, d] <:+: [] ++ [enter, esc] := by
    intro d hd
    rcases hd with rfl | rfl <;> decide
  constructor
  · obtain ⟨r, _, h, _, _, _, h3⟩ :=
      secure_attention (sample_attach [13, 27, 46] 2 0) sample_term rfl (by decide)
    obtain ⟨htr, hcount⟩ := h3 (quiet_sample _ _ _) [] dot [] (Or.inl rfl) rfl hfirst
    exact ⟨r, h, by simpa [sample_attach, teardown] using htr,
      by simpa [sample_attach] using hcount⟩
  · obtain ⟨r, _, h, _, _, _, h3⟩ :=
      secure_attention (sample_attach [13, 27, 44] 2 0) sample_term rfl (by decide)
    obtain ⟨htr, hcount⟩ := h3 (quiet_sample _ _ _) [] comma [] (Or.inr rfl) rfl hfirst
    exact ⟨r, h, by simpa [sample_attach, teardown] using htr,
      by simpa [sample_attach] using hcount⟩

/-- C5: when `tcgetattr` and both `tcsetattr` calls succeed, every call of
`vzcon_attach` ends (detach, termination flag, read error, write error, fork
failure, or the forked reader, which never returns) with the host terminal
attributes equal to those at entry, and `raw_off` has run as often as `raw_on`,
at most once. -/
theorem terminal_restored {T : Type} (E : Env T) (t : Term T) (h1 : E.tcgetattr_ok = true)
    (h2 : E.tcsetattr_raw_ok = true) (h3 : E.tcsetattr_restore_ok = true) :
    ∃ r, vzcon_attach E t = some r ∧ r.term.tios = t.tios ∧
      r.trace.count Event.raw_off = r.trace.count Event.raw_on ∧
      r.trace.count Event.raw_on ≤ 1 := by
  by_cases hneg : E.pid < 0
  · rw [show vzcon_attach E t = some
        { outcome := Outcome.returned E.VZ_RESOURCE_ERROR, how := none, trace := [], term := t }
      from by simp [vzcon_attach, hneg]]
    exact ⟨_, rfl, rfl, rfl, by simp⟩
  by_cases hzero : E.pid = 0
  · rw [show vzcon_attach E t = some
        { outcome := (match child E.stdout_write E.tty_read 0 with
                      | some st => Outcome.exited st
                      | none => Outcome.running),
          how := none, trace := [], term := t }
      from by simp [vzcon_attach, hzero]]
    exact ⟨_, rfl, rfl, rfl, by simp⟩
  obtain ⟨how, ws, h⟩ := vzcon_attach_shape E t (by omega)
  refine ⟨_, h, by simp [raw_on, raw_off, h1, h2, h3], ?_, ?_⟩
  · simp [List.count_cons, List.count_append, count_raw_map, count_raw_sak_of,
      count_raw_teardown]
  · simp [List.count_cons, List.count_append, count_raw_map, count_raw_sak_of,
      count_raw_teardown]

/-- Witness of C5: a session ended by a read at the end of the input. -/
theorem terminal_restored_witness :
    ∃ r, vzcon_attach (sample_attach [104, 105] 1 0) sample_term = some r ∧
      r.term.tios = sample_term.tios ∧
      r.trace.count Event.raw_off = r.trace.count Event.raw_on ∧
      r.trace.count Event.raw_on ≤ 1 :=
  terminal_restored (sample_attach [104, 105] 1 0) sample_term rfl rfl rfl

/-- C6: when the first read of the host input returns 0, `vzcon_attach` runs
the whole teardown and then returns the value the local `ret` held from the
start, which no statement on the way to the label `err` assigns; with that
value 0 the call returns 0. -/
theorem io_error_return_unassigned (ret0 : Int) :
    (vzcon_attach (sample_attach [] 1 ret0) sample_term).map
        (fun r => (r.outcome, r.how, r.trace)) =
      some (Outcome.returned ret0, some Exit.read_err,
        [Event.raw_on, Event.kill, Event.waitpid, Event.raw_off]) ∧
    (vzcon_attach (sample_attach [] 1 0) sample_term).map (fun r => r.outcome) =
      some (Outcome.returned 0) := by
  constructor <;> rfl

/-- C7: when `env_is_running` is false, `vzcon_start` and, for `ntty` at least
3, `vzcon_start_vz7` return `VZ_VE_NOT_RUNNING` with no call made and nothing
stored through `tty_fd` or `tty_path`. -/
theorem not_running (E : StartEnv) (h : E.running = false) :
    vzcon_start E =
        { ret := E.VZ_VE_NOT_RUNNING, tty_fd := none, tty_path := none, trace := [] } ∧
      ∀ ntty : Int, 3 ≤ ntty → vzcon_start_vz7 E ntty =
        { ret := E.VZ_VE_NOT_RUNNING, tty_fd := none, tty_path := none, trace := [] } := by
  constructor
  · simp [vzcon_start, h, StartResult.fail]
  · intro ntty hn
    have : ¬ ntty < 3 := by omega
    simp [vzcon_start_vz7, this, h, StartResult.fail]

/-- Witness of C7: the sample container, stopped. -/
theorem not_running_witness :
    vzcon_start { sample_start 0 with running := false } =
        { ret := 31, tty_fd := none, tty_path := none, trace := [] } ∧
      ∀ ntty : Int, 3 ≤ ntty → vzcon_start_vz7 { sample_start 0 with running := false } ntty =
        { ret := 31, tty_fd := none, tty_path := none, trace := [] } :=
  not_running { sample_start 0 with running := false } rfl

/-- C8 as stated fails: with the pseudoterminal allocated and the action script
returning 1, nothing is stored through `tty_fd`. -/
theorem action_failure_refuted :
    ¬ ∀ E : StartEnv, Allocated E → E.action ≠ 0 → E.tty_fd_ptr = true →
      (vzcon_start E).tty_fd = some E.master_fd := by
  intro h
  have h1 := h (sample_start 1) (by unfold Allocated; decide) (by decide) rfl
  revert h1
  decide

/-- C8 amended: with the pseudoterminal allocated, `vzcon_start` returns the
code of the action script after running it; when that code is not 0 nothing
is stored through `tty_fd` or `tty_path`; when it is 0 and `tty_fd` is not
null the master descriptor is stored through it. -/
theorem action_failure_amended (E : StartEnv) (h : Allocated E) :
    (vzcon_start E).ret = E.action ∧
      PEvent.action (E.pts_name.drop 5) none ∈ (vzcon_start E).trace ∧
      (E.action ≠ 0 → (vzcon_start E).tty_fd = none ∧ (vzcon_start E).tty_path = none) ∧
      (E.action = 0 → E.tty_fd_ptr = true → (vzcon_start E).tty_fd = some E.master_fd) := by
  obtain ⟨a, b, c, d, e, f, g, i, j, k⟩ := h
  refine ⟨?_, ?_, ?_, ?_⟩
  · simp [vzcon_start, a, b, c, d, e, f, g, i, j, k]
  · simp [vzcon_start, a, b, c, d, e, f, g, i, j, k]
  · intro hne
    simp [vzcon_start, a, b, c, d, e, f, g, i, j, k, hne]
  · intro h0 hp
    simp [vzcon_start, a, b, c, d, e, f, g, i, j, k, h0, hp]

/-- Witness of C8 amended: the action script returns 1. -/
theorem action_failure_amended_witness :
    (vzcon_start (sample_start 1)).ret = 1 ∧
      PEvent.action ((sample_start 1).pts_name.drop 5) none ∈ (vzcon_start (sample_start 1)).trace ∧
      ((sample_start 1).action ≠ 0 →
        (vzcon_start (sample_start 1)).tty_fd = none ∧
          (vzcon_start (sample_start 1)).tty_path = none) ∧
      ((sample_start 1).action = 0 → (sample_start 1).tty_fd_ptr = true →
        (vzcon_start (sample_start 1)).tty_fd = some (sample_start 1).master_fd) :=
  action_failure_amended (sample_start 1) (by unfold Allocated; decide)

/-- C9: after the container mount namespace has been entered, a failure of
`open("/dev/ptmx")`, `grantpt`, `unlockpt`, `ptsname_r` or of the open of the
slave path makes `vzcon_start` return -1 with `vzctl2_enter_mnt_ns` called once
and `setns` never called.  Each entry of the list is: result of
`vzctl2_enter_mnt_ns`, return value, number of `vzctl2_enter_mnt_ns` calls,
number of `setns` calls. -/
theorem namespace_left_entered :
    failing_after_enter.map (fun E =>
        (E.enter_mnt_ns, (vzcon_start E).ret,
          (vzcon_start E).trace.count PEvent.enter_mnt_ns,
          (vzcon_start E).trace.count PEvent.setns)) =
      List.replicate 5 (0, -1, 1, 0) := by
  decide

/-- Reads that return 0 under `errno` `EINTR` or `EAGAIN` are all retried. -/
theorem child_retry (w : Nat → Int) (e : Int) (he : e = EINTR ∨ e = EAGAIN) (n k : Nat) :
    child w (List.replicate n ⟨0, e⟩) k = none := by
  induction n with
  | zero => rfl
  | succ n ih => simpa [List.replicate_succ, child, he] using ih

/-- C10: a read of the container terminal that returns 0 while `errno` holds
`EINTR` or `EAGAIN` makes the forked reader read again: however many such
reads follow one another, also after a read that failed with `EINTR`, the
reader has not exited. -/
theorem reader_spins_at_end_of_stream (w : Nat → Int) (n k : Nat) :
    child w (List.replicate n ⟨0, EINTR⟩) k = none ∧
      child w (List.replicate n ⟨0, EAGAIN⟩) k = none ∧
      child w (⟨-1, EINTR⟩ :: List.replicate n ⟨0, EINTR⟩) k = none := by
  have h1 := child_retry w EINTR (Or.inl rfl) n k
  exact ⟨h1, child_retry w EAGAIN (Or.inr rfl) n k, by simpa [child] using h1⟩

end Vzctl
